import Mathlib

/-!
Verification development for a decimal-safe money library.

The library stores monetary amounts as exact integer counts of minor
units (JavaScript BigInt) paired with a currency record, and routes
every floating-point rate, percentage or increment through an exact
decimal-string codec into a 20-digit scaled-integer representation.

Modelling conventions:
  - JavaScript BigInt division `/` truncates toward zero and `%` takes
    the sign of the dividend; these are embedded as `Int.tdiv` and
    `Int.tmod`.
  - A finite JavaScript number enters the arithmetic core only through
    its exact decimal-string representation (`numberToDecimalString`,
    which uses `toString` or `toPrecision(17)`); a finite number is
    therefore embedded as the structured decimal string `DecStr` it
    produces, and NaN and the infinities as separate constructors of
    `JSNum`.
  - Thrown `Error`s become constructors of `MoneyError`, one per
    distinct throw site / message shape; operations return
    `Except MoneyError`.
-/

/-- Rounding policy, mirroring the `RoundingMode` union type. -/
inductive RoundingMode where
  | floor
  | ceil
  | round
  | trunc
deriving DecidableEq, Repr

/-- Currency record: a code together with a decimal-place count. -/
structure CurrencyDefinition where
  code : String
  decimalPlaces : Nat
deriving DecidableEq, Repr

/-- Internal precision for scaled integer arithmetic (20 decimal places). -/
def INTERNAL_PRECISION : Nat := 20

/-- The internal scale `10n ** BigInt(INTERNAL_PRECISION)`. -/
def INTERNAL_SCALE : Int := 10 ^ INTERNAL_PRECISION

/-- The safe-integer envelope `Number.MAX_SAFE_INTEGER` of the host. -/
def MAX_SAFE_INTEGER : Int := 2 ^ 53 - 1

/-- A decimal string, structured: an optional leading minus sign, an
integer part, a list of decimal digits after the dot, and an optional
exponent for scientific notation (`none` for fixed notation). -/
structure DecStr where
  negative : Bool
  intPart : Nat
  decPart : List Nat
  exp : Option Int
deriving DecidableEq, Repr

/-- Numeric value of a digit string (the `BigInt(decPart)` of the code). -/
def decDigitsVal (ds : List Nat) : Nat :=
  ds.foldl (fun a d => a * 10 + d) 0

/-- Exact absolute numerator of a decimal string over the denominator
`10 ^ decPart.length` (before any exponent shift). -/
def DecStr.absNum (s : DecStr) : Nat :=
  s.intPart * 10 ^ s.decPart.length + decDigitsVal s.decPart

/-- A JavaScript number: either finite, carried as the exact decimal
string its host formatting produces, or NaN or an infinity. -/
inductive JSNum where
  | finite (s : DecStr)
  | nan
  | posInf
  | negInf
deriving DecidableEq, Repr

/-- Error taxonomy: one constructor per distinct throw site of the
source, with the currency-mismatch error carrying the operation name
and both currency codes as its message does. -/
inductive MoneyError where
  | invalidNumber
  | valueTooLarge
  | precisionLoss
  | currencyMismatch (operation codeA codeB : String)
  | resultTooLarge
  | emptyInput
  | invalidCount
  | unsafeCount
  | invalidRate
  | invalidIncrement
  | incrementNotRepresentable
  | incrementTooSmall
  | invalidCurrencyDefinition
deriving DecidableEq, Repr

/-- Converts a number to its decimal-string representation. Fails for
NaN and the infinities; a finite number already carries the exact
string produced by the host (`toString`, or `toPrecision(17)` re-render
when `toString` used scientific notation; zero is carried as "0"). -/
def numberToDecimalString (n : JSNum) : Except MoneyError DecStr :=
  match n with
  | .finite s => .ok s
  | .nan => .error .invalidNumber
  | .posInf => .error .invalidNumber
  | .negInf => .error .invalidNumber

/-- Fixed-notation branch of `parseDecimalStringToScaled`: pad or
truncate the decimal part to the internal precision, then combine with
the integer part and the sign. -/
def parseFixedToScaled (negative : Bool) (intPart : Nat) (decPart : List Nat) : Int :=
  let digits := (decPart ++ List.replicate INTERNAL_PRECISION 0).take INTERNAL_PRECISION
  let scaledInt : Int := (intPart : Int) * INTERNAL_SCALE
  let scaledDec : Int := (decDigitsVal digits : Int)
  let result := scaledInt + scaledDec
  if negative then -result else result

/-- Parses an optionally signed decimal string, optionally in
scientific notation, into a scaled integer at 20-digit internal
precision. A positive exponent multiplies the scaled mantissa by the
power of ten; a negative exponent divides it with BigInt (truncating)
division. -/
def parseDecimalStringToScaled (s : DecStr) : Int :=
  match s.exp with
  | none => parseFixedToScaled s.negative s.intPart s.decPart
  | some exponent =>
    let scaledMantissa := parseFixedToScaled false s.intPart s.decPart
    let sign : Int := if s.negative then -1 else 1
    if 0 ≤ exponent then
      sign * scaledMantissa * 10 ^ exponent.toNat
    else
      (sign * scaledMantissa).tdiv (10 ^ (-exponent).toNat)

/-- Rounds a 20-digit scaled integer down to a target number of decimal
places under a rounding policy, mirroring `roundScaledToMinor`. -/
def roundScaledToMinor (scaled : Int) (targetDecimalPlaces : Nat)
    (mode : RoundingMode) : Int :=
  let targetScale : Int := 10 ^ targetDecimalPlaces
  let divisor := INTERNAL_SCALE.tdiv targetScale
  let quotient := scaled.tdiv divisor
  let remainder := scaled.tmod divisor
  if remainder = 0 then quotient
  else
    let isNegative := scaled < 0
    let absRemainder := if isNegative then -remainder else remainder
    let halfDivisor := divisor.tdiv 2
    match mode with
    | .floor => if isNegative then quotient - 1 else quotient
    | .ceil => if isNegative then quotient else quotient + 1
    | .trunc => quotient
    | .round =>
      if absRemainder > halfDivisor ∨ (absRemainder = halfDivisor ∧ ¬isNegative) then
        if isNegative then quotient - 1 else quotient + 1
      else quotient

/-- Currency-match guard: compares code and decimal places; on mismatch
fails with an error naming the operation and both codes. -/
def assertCurrenciesMatch (a b : CurrencyDefinition) (operation : String) :
    Except MoneyError Unit :=
  if a.code ≠ b.code ∨ a.decimalPlaces ≠ b.decimalPlaces then
    .error (.currencyMismatch operation a.code b.code)
  else
    .ok ()

/-- Overflow guard: fails when a produced amount leaves the
safe-integer envelope. -/
def assertSafeResult (value : Int) : Except MoneyError Unit :=
  if value > MAX_SAFE_INTEGER ∨ value < -MAX_SAFE_INTEGER then
    .error .resultTooLarge
  else
    .ok ()

/-- The Money value: a signed minor-unit amount and a currency record. -/
structure Money where
  minor : Int
  currency : CurrencyDefinition
deriving DecidableEq, Repr

/-- Models the fast pre-check of `fromNumber`: the comparison
`Math.abs(value) * 10 ** decimalPlaces > Number.MAX_SAFE_INTEGER`,
evaluated exactly on the decimal value the number denotes (the final
float rounding of the product is abstracted away). NaN compares false;
the infinities compare true. -/
def estimatedMinorExceedsSafe (value : JSNum) (decimalPlaces : Nat) : Bool :=
  match value with
  | .nan => false
  | .posInf => true
  | .negInf => true
  | .finite s =>
    let num : Int := (s.absNum : Int) * 10 ^ decimalPlaces
    let den : Int := 10 ^ s.decPart.length
    match s.exp with
    | none => decide (MAX_SAFE_INTEGER * den < num)
    | some e =>
      if 0 ≤ e then decide (MAX_SAFE_INTEGER * den < num * 10 ^ e.toNat)
      else decide (MAX_SAFE_INTEGER * den * 10 ^ (-e).toNat < num)

/-- Models the guard `!Number.isFinite(x) || x <= 0` on a rate or
increment: true for NaN and the infinities, and for finite values that
are zero or negative. -/
def jsNonFiniteOrNonpos (n : JSNum) : Bool :=
  match n with
  | .nan => true
  | .posInf => true
  | .negInf => true
  | .finite s => s.negative || s.absNum == 0

/-- Constructs a Money from a number: pre-check against the envelope,
codec conversion to the scaled representation, optional strict
exactness check, rounding to minor units, and the overflow guard. The
source defaults `rounding` to `round` and `strict` to false. -/
def Money.fromNumber (currency : CurrencyDefinition) (value : JSNum)
    (rounding : RoundingMode) (strict : Bool) : Except MoneyError Money :=
  if estimatedMinorExceedsSafe value currency.decimalPlaces then
    .error .valueTooLarge
  else
    match numberToDecimalString value with
    | .error e => .error e
    | .ok valueStr =>
      let scaledValue := parseDecimalStringToScaled valueStr
      let targetScale : Int := 10 ^ currency.decimalPlaces
      let divisor := INTERNAL_SCALE.tdiv targetScale
      if strict = true ∧ scaledValue.tmod divisor ≠ 0 then
        .error .precisionLoss
      else
        let minor := roundScaledToMinor scaledValue currency.decimalPlaces rounding
        match assertSafeResult minor with
        | .error e => .error e
        | .ok _ => .ok ⟨minor, currency⟩

/-- Wraps an integer minor amount directly, with no check (the JS
argument is a number; its integrality is captured by the `Int` type). -/
def Money.fromMinor (currency : CurrencyDefinition) (minor : Int) : Money :=
  ⟨minor, currency⟩

/-- Currency-matched addition with the overflow guard. -/
def Money.add (a b : Money) : Except MoneyError Money :=
  match assertCurrenciesMatch a.currency b.currency "add" with
  | .error e => .error e
  | .ok _ =>
    let result := a.minor + b.minor
    match assertSafeResult result with
    | .error e => .error e
    | .ok _ => .ok ⟨result, a.currency⟩

/-- Currency-matched subtraction with the overflow guard. -/
def Money.subtract (a b : Money) : Except MoneyError Money :=
  match assertCurrenciesMatch a.currency b.currency "subtract" with
  | .error e => .error e
  | .ok _ =>
    let result := a.minor - b.minor
    match assertSafeResult result with
    | .error e => .error e
    | .ok _ => .ok ⟨result, a.currency⟩

/-- The accumulation loop of `sum`: checks every item against the
currency of the first element while totalling the minor amounts. -/
def sumLoop (currency : CurrencyDefinition) (total : Int) :
    List Money → Except MoneyError Int
  | [] => .ok total
  | item :: rest =>
    match assertCurrenciesMatch item.currency currency "sum" with
    | .error e => .error e
    | .ok _ => sumLoop currency (total + item.minor) rest

/-- Folds a non-empty list of Money into its total, requiring all items
to share the currency of the first element, with the overflow guard. -/
def Money.sum (items : List Money) : Except MoneyError Money :=
  match items with
  | [] => .error .emptyInput
  | first :: _ =>
    match sumLoop first.currency 0 items with
    | .error e => .error e
    | .ok total =>
      match assertSafeResult total with
      | .error e => .error e
      | .ok _ => .ok ⟨total, first.currency⟩

/-- Splits an amount into `parts` shares by integer quotient and
remainder; the first `|remainder|` shares get one extra unit carrying
the sign of the remainder. The count must be a positive safe integer
(integrality of the JS number argument is captured by the `Int` type). -/
def Money.allocate (money : Money) (parts : Int) : Except MoneyError (List Money) :=
  if parts < 1 then .error .invalidCount
  else if parts > MAX_SAFE_INTEGER then .error .unsafeCount
  else
    let base := money.minor.tdiv parts
    let remainder := money.minor.tmod parts
    let absRemainder := if remainder < 0 then -remainder else remainder
    let sign : Int := if remainder < 0 then -1 else 1
    .ok ((List.range parts.toNat).map
      (fun (i : Nat) => ⟨base + (if (i : Int) < absRemainder then sign else 0), money.currency⟩))

/-- Converts an amount to a target currency at a positive finite rate:
the rate enters through the codec, the source amount is rescaled to
internal precision, multiplied, scaled back down, rounded to the
target decimal places, and checked against the envelope. -/
def Money.convert (money : Money) (targetCurrency : CurrencyDefinition)
    (rate : JSNum) (rounding : RoundingMode) : Except MoneyError Money :=
  if jsNonFiniteOrNonpos rate then .error .invalidRate
  else
    match numberToDecimalString rate with
    | .error e => .error e
    | .ok rateStr =>
      let scaledRate := parseDecimalStringToScaled rateStr
      let sourceScale : Int := 10 ^ money.currency.decimalPlaces
      let scaledSource := money.minor * (INTERNAL_SCALE.tdiv sourceScale)
      let rawProduct := (scaledSource * scaledRate).tdiv INTERNAL_SCALE
      let resultMinor := roundScaledToMinor rawProduct targetCurrency.decimalPlaces rounding
      match assertSafeResult resultMinor with
      | .error e => .error e
      | .ok _ => .ok ⟨resultMinor, targetCurrency⟩

/-- Rounds an amount to the nearest multiple of an arbitrary increment.
The increment runs through the codec and must be exactly representable
at the currency precision with a non-zero minor-unit step; the four
policies are then applied directly on minor-unit integers. -/
def Money.roundTo (money : Money) (increment : JSNum) (mode : RoundingMode) :
    Except MoneyError Money :=
  if jsNonFiniteOrNonpos increment then .error .invalidIncrement
  else
    match numberToDecimalString increment with
    | .error e => .error e
    | .ok incStr =>
      let scaledIncrement := parseDecimalStringToScaled incStr
      let targetScale : Int := 10 ^ money.currency.decimalPlaces
      let divisor := INTERNAL_SCALE.tdiv targetScale
      if scaledIncrement.tmod divisor ≠ 0 then .error .incrementNotRepresentable
      else
        let incrementMinor := scaledIncrement.tdiv divisor
        if incrementMinor = 0 then .error .incrementTooSmall
        else
          let minor := money.minor
          let remainder := minor.tmod incrementMinor
          if remainder = 0 then .ok ⟨minor, money.currency⟩
          else
            let base := minor - remainder
            let rounded : Int :=
              match mode with
              | .trunc => base
              | .floor => if minor < 0 then base - incrementMinor else base
              | .ceil => if minor < 0 then base else base + incrementMinor
              | .round =>
                let absRemainder := if remainder < 0 then -remainder else remainder
                let cmp := absRemainder * 2 - incrementMinor
                if cmp < 0 then base
                else if cmp > 0 then
                  if minor < 0 then base - incrementMinor else base + incrementMinor
                else
                  if minor < 0 then base else base + incrementMinor
            match assertSafeResult rounded with
            | .error e => .error e
            | .ok _ => .ok ⟨rounded, money.currency⟩

/-- Computes `minorAmount * percent / 100` at internal precision, then
rounds to the currency scale and checks the envelope. -/
def Money.percentOf (money : Money) (percent : JSNum) (rounding : RoundingMode) :
    Except MoneyError Money :=
  match numberToDecimalString percent with
  | .error e => .error e
  | .ok percentStr =>
    let scaledPercent := parseDecimalStringToScaled percentStr
    let scaledHundred := 100 * INTERNAL_SCALE
    let currencyScale : Int := 10 ^ money.currency.decimalPlaces
    let scaledMoney := money.minor * (INTERNAL_SCALE.tdiv currencyScale)
    let rawResult := (scaledMoney * scaledPercent).tdiv scaledHundred
    let resultMinor := roundScaledToMinor rawResult money.currency.decimalPlaces rounding
    match assertSafeResult resultMinor with
    | .error e => .error e
    | .ok _ => .ok ⟨resultMinor, money.currency⟩

/-- Computes `minorAmount * (100 + percent) / 100` at internal
precision, then rounds to the currency scale and checks the envelope. -/
def Money.incrementByPercent (money : Money) (percent : JSNum)
    (rounding : RoundingMode) : Except MoneyError Money :=
  match numberToDecimalString percent with
  | .error e => .error e
  | .ok percentStr =>
    let scaledPercent := parseDecimalStringToScaled percentStr
    let scaledHundred := 100 * INTERNAL_SCALE
    let currencyScale : Int := 10 ^ money.currency.decimalPlaces
    let scaledMoney := money.minor * (INTERNAL_SCALE.tdiv currencyScale)
    let rawResult := (scaledMoney * (scaledHundred + scaledPercent)).tdiv scaledHundred
    let resultMinor := roundScaledToMinor rawResult money.currency.decimalPlaces rounding
    match assertSafeResult resultMinor with
    | .error e => .error e
    | .ok _ => .ok ⟨resultMinor, money.currency⟩

/-- Computes `minorAmount * (100 - percent) / 100` at internal
precision, then rounds to the currency scale and checks the envelope. -/
def Money.decrementByPercent (money : Money) (percent : JSNum)
    (rounding : RoundingMode) : Except MoneyError Money :=
  match numberToDecimalString percent with
  | .error e => .error e
  | .ok percentStr =>
    let scaledPercent := parseDecimalStringToScaled percentStr
    let scaledHundred := 100 * INTERNAL_SCALE
    let currencyScale : Int := 10 ^ money.currency.decimalPlaces
    let scaledMoney := money.minor * (INTERNAL_SCALE.tdiv currencyScale)
    let rawResult := (scaledMoney * (scaledHundred - scaledPercent)).tdiv scaledHundred
    let resultMinor := roundScaledToMinor rawResult money.currency.decimalPlaces rounding
    match assertSafeResult resultMinor with
    | .error e => .error e
    | .ok _ => .ok ⟨resultMinor, money.currency⟩

/-- Built-in USD definition (2 decimal places). -/
def Currency.USD : CurrencyDefinition := ⟨"USD", 2⟩

/-- Built-in EUR definition (2 decimal places). -/
def Currency.EUR : CurrencyDefinition := ⟨"EUR", 2⟩

/-- The number 1 as its decimal string. -/
def jsOne : JSNum := .finite ⟨false, 1, [], none⟩

/-- The number 100 as its decimal string. -/
def jsHundred : JSNum := .finite ⟨false, 100, [], none⟩

/-- The number 1.005, whose `toString` is exactly the string 1.005. -/
def jsRate1005 : JSNum := .finite ⟨false, 1, [0, 0, 5], none⟩

/-- The number 1.3892503971337602, whose `toString` is exactly that
16-fraction-digit string. -/
def jsRate13892503971337602 : JSNum :=
  .finite ⟨false, 1, [3, 8, 9, 2, 5, 0, 3, 9, 7, 1, 3, 3, 7, 6, 0, 2], none⟩
/-- Decidable equality for Except results, used to evaluate concrete
scenarios. -/
instance {ε α : Type} [DecidableEq ε] [DecidableEq α] : DecidableEq (Except ε α) :=
  fun x y =>
    match x, y with
    | .ok a, .ok b =>
      if h : a = b then .isTrue (by rw [h])
      else .isFalse (fun hc => h (Except.ok.inj hc))
    | .error a, .error b =>
      if h : a = b then .isTrue (by rw [h])
      else .isFalse (fun hc => h (Except.error.inj hc))
    | .ok _, .error _ => .isFalse (fun hc => Except.noConfusion hc)
    | .error _, .ok _ => .isFalse (fun hc => Except.noConfusion hc)

/-- C1: converting one USD at rate 1.005 into EUR yields minor amount
101 under the default policy and 100 under floor, the rate having
entered exactly through the decimal-string codec. -/
theorem convert_one_usd_at_1005_midpoint :
    (Money.fromNumber Currency.USD jsOne .round false).bind
        (fun m => Money.convert m Currency.EUR jsRate1005 .round)
      = .ok ⟨101, Currency.EUR⟩
  ∧ (Money.fromNumber Currency.USD jsOne .round false).bind
        (fun m => Money.convert m Currency.EUR jsRate1005 .floor)
      = .ok ⟨100, Currency.EUR⟩ := by
  constructor <;> rfl

/-- C7: converting 100 USD at rate 1.3892503971337602 into EUR yields
minor amount exactly 13893, the rate being carried exactly through the
decimal-string-to-scaled-integer path. -/
theorem convert_hundred_usd_exact_rate :
    (Money.fromNumber Currency.USD jsHundred .round false).bind
        (fun m => Money.convert m Currency.EUR jsRate13892503971337602 .round)
      = .ok ⟨13893, Currency.EUR⟩ := by
  rfl

/-- C10: percentOf, incrementByPercent and decrementByPercent fail with
the codec InvalidNumber error when the percent is NaN or an infinity,
before any arithmetic, producing no Money. -/
theorem percent_ops_reject_nonfinite (m : Money) (r : RoundingMode) :
    Money.percentOf m .nan r = .error .invalidNumber
  ∧ Money.percentOf m .posInf r = .error .invalidNumber
  ∧ Money.percentOf m .negInf r = .error .invalidNumber
  ∧ Money.incrementByPercent m .nan r = .error .invalidNumber
  ∧ Money.incrementByPercent m .posInf r = .error .invalidNumber
  ∧ Money.incrementByPercent m .negInf r = .error .invalidNumber
  ∧ Money.decrementByPercent m .nan r = .error .invalidNumber
  ∧ Money.decrementByPercent m .posInf r = .error .invalidNumber
  ∧ Money.decrementByPercent m .negInf r = .error .invalidNumber :=
  ⟨rfl, rfl, rfl, rfl, rfl, rfl, rfl, rfl, rfl⟩

/-- C5 counterexample: the scaled value of -0.005 at two decimal places
is an exact midpoint, yet the default policy returns 0 (toward zero),
not the larger-magnitude neighbor -1; likewise roundTo sends -5 minor
units at increment 0.1 to 0, not -10. -/
theorem negative_midpoint_rounds_toward_zero :
    roundScaledToMinor (-(5 * 10 ^ 17)) 2 .round = 0
  ∧ roundScaledToMinor (-(5 * 10 ^ 17)) 2 .round ≠ -1
  ∧ Money.roundTo ⟨-5, Currency.USD⟩ (.finite ⟨false, 0, [1], none⟩) .round
      = .ok ⟨0, Currency.USD⟩
  ∧ Money.roundTo ⟨-5, Currency.USD⟩ (.finite ⟨false, 0, [1], none⟩) .round
      ≠ .ok ⟨-10, Currency.USD⟩ := by
  refine ⟨rfl, by decide, rfl, by decide⟩

/-- C3 counterexample: fromMinor wraps its argument with no safe-range
check, producing a Money whose minor amount exceeds the safe-integer
envelope without failing. -/
theorem fromMinor_exceeds_envelope_unchecked :
    (Money.fromMinor Currency.USD (2 ^ 53)).minor = 2 ^ 53
  ∧ MAX_SAFE_INTEGER < (Money.fromMinor Currency.USD (2 ^ 53)).minor :=
  ⟨rfl, by decide⟩
/-- Helper: the overflow guard succeeds exactly within the envelope. -/
theorem assertSafeResult_ok_bounds {v : Int} {u : Unit}
    (h : assertSafeResult v = .ok u) :
    -MAX_SAFE_INTEGER ≤ v ∧ v ≤ MAX_SAFE_INTEGER := by
  unfold assertSafeResult at h
  split at h
  · cases h
  · rename_i hcond
    push_neg at hcond
    exact ⟨hcond.2, hcond.1⟩

/-- Helper: the overflow guard succeeds on any value within the envelope. -/
theorem assertSafeResult_eq_ok {v : Int}
    (h1 : -MAX_SAFE_INTEGER ≤ v) (h2 : v ≤ MAX_SAFE_INTEGER) :
    assertSafeResult v = .ok () := by
  unfold assertSafeResult
  rw [if_neg]
  push_neg
  exact ⟨h2, h1⟩

/-- Helper: the currency-match guard succeeds on equal records. -/
theorem assertCurrenciesMatch_self (c : CurrencyDefinition) (op : String) :
    assertCurrenciesMatch c c op = .ok () := by
  unfold assertCurrenciesMatch
  rw [if_neg]
  push_neg
  exact ⟨rfl, rfl⟩

/-- C8: adding one minor unit to the Money holding the full safe
envelope fails with ResultTooLarge, and in general add fails with
ResultTooLarge whenever the magnitude of the sum exceeds the envelope,
producing no Money. -/
theorem add_overflow_fails :
    Money.add (Money.fromMinor Currency.USD MAX_SAFE_INTEGER)
        (Money.fromMinor Currency.USD 1) = .error .resultTooLarge
  ∧ ∀ a b : Money, a.currency = b.currency →
      (a.minor + b.minor > MAX_SAFE_INTEGER ∨ a.minor + b.minor < -MAX_SAFE_INTEGER) →
      Money.add a b = .error .resultTooLarge := by
  constructor
  · decide
  · intro a b hc hov
    unfold Money.add
    rw [hc, assertCurrenciesMatch_self]
    dsimp only
    unfold assertSafeResult
    rw [if_pos hov]

/-- C6: when the two currencies differ, add fails with CurrencyMismatch
in both argument orders (each message naming the two codes in call
order); when they are equivalent, add is commutative, and succeeds
whenever the sum stays within the envelope. -/
theorem add_currency_symmetry (a b : Money) :
    (a.currency ≠ b.currency →
        Money.add a b
          = .error (.currencyMismatch "add" a.currency.code b.currency.code)
      ∧ Money.add b a
          = .error (.currencyMismatch "add" b.currency.code a.currency.code))
  ∧ (a.currency = b.currency →
        Money.add a b = Money.add b a
      ∧ (-MAX_SAFE_INTEGER ≤ a.minor + b.minor → a.minor + b.minor ≤ MAX_SAFE_INTEGER →
          ∃ c : Money, Money.add a b = .ok c)) := by
  constructor
  · intro hne
    have hcond : a.currency.code ≠ b.currency.code ∨
        a.currency.decimalPlaces ≠ b.currency.decimalPlaces := by
      by_contra hcontra
      push_neg at hcontra
      apply hne
      cases ha : a.currency
      cases hb : b.currency
      rw [ha, hb] at hcontra
      simp_all
    have hcond' : b.currency.code ≠ a.currency.code ∨
        b.currency.decimalPlaces ≠ a.currency.decimalPlaces :=
      hcond.imp Ne.symm Ne.symm
    constructor
    · unfold Money.add assertCurrenciesMatch
      rw [if_pos hcond]
    · unfold Money.add assertCurrenciesMatch
      rw [if_pos hcond']
  · intro heq
    constructor
    · unfold Money.add
      rw [heq, assertCurrenciesMatch_self, Int.add_comm]
    · intro h1 h2
      refine ⟨⟨a.minor + b.minor, a.currency⟩, ?_⟩
      unfold Money.add
      rw [heq, assertCurrenciesMatch_self]
      dsimp only
      rw [assertSafeResult_eq_ok h1 h2]

/-- Witness for C6: with two equal-currency USD amounts, add is
commutative and succeeds. -/
theorem add_currency_symmetry_witness :
    Money.add ⟨100, Currency.USD⟩ ⟨5, Currency.USD⟩
        = Money.add ⟨5, Currency.USD⟩ ⟨100, Currency.USD⟩
  ∧ ∃ c : Money, Money.add ⟨100, Currency.USD⟩ ⟨5, Currency.USD⟩ = .ok c := by
  have h := (add_currency_symmetry ⟨100, Currency.USD⟩ ⟨5, Currency.USD⟩).2 rfl
  exact ⟨h.1, h.2 (by decide) (by decide)⟩

/-- Witness for C8: two amounts at the top of the envelope overflow on
addition and fail with ResultTooLarge. -/
theorem add_overflow_fails_witness :
    Money.add ⟨2 ^ 53, Currency.USD⟩ ⟨2 ^ 53, Currency.USD⟩
      = .error .resultTooLarge :=
  add_overflow_fails.2 ⟨2 ^ 53, Currency.USD⟩ ⟨2 ^ 53, Currency.USD⟩ rfl
    (Or.inl (by decide))
/-- Helper: a successful add stays within the envelope. -/
theorem add_ok_safe {a b m : Money} (h : Money.add a b = .ok m) :
    -MAX_SAFE_INTEGER ≤ m.minor ∧ m.minor ≤ MAX_SAFE_INTEGER := by
  unfold Money.add at h
  split at h
  · cases h
  · dsimp only at h
    split at h
    · cases h
    · rename_i hassert
      cases h
      exact assertSafeResult_ok_bounds hassert

/-- Helper: a successful subtract stays within the envelope. -/
theorem subtract_ok_safe {a b m : Money} (h : Money.subtract a b = .ok m) :
    -MAX_SAFE_INTEGER ≤ m.minor ∧ m.minor ≤ MAX_SAFE_INTEGER := by
  unfold Money.subtract at h
  split at h
  · cases h
  · dsimp only at h
    split at h
    · cases h
    · rename_i hassert
      cases h
      exact assertSafeResult_ok_bounds hassert

/-- Helper: a successful sum stays within the envelope. -/
theorem sum_ok_safe {items : List Money} {m : Money} (h : Money.sum items = .ok m) :
    -MAX_SAFE_INTEGER ≤ m.minor ∧ m.minor ≤ MAX_SAFE_INTEGER := by
  unfold Money.sum at h
  split at h
  · cases h
  · split at h
    · cases h
    · split at h
      · cases h
      · rename_i hassert
        cases h
        exact assertSafeResult_ok_bounds hassert

/-- Helper: a successful fromNumber stays within the envelope. -/
theorem fromNumber_ok_safe {c : CurrencyDefinition} {v : JSNum}
    {r : RoundingMode} {st : Bool} {m : Money}
    (h : Money.fromNumber c v r st = .ok m) :
    -MAX_SAFE_INTEGER ≤ m.minor ∧ m.minor ≤ MAX_SAFE_INTEGER := by
  unfold Money.fromNumber at h
  split at h
  · cases h
  · split at h
    · cases h
    · dsimp only at h
      split at h
      · cases h
      · split at h
        · cases h
        · rename_i hassert
          cases h
          exact assertSafeResult_ok_bounds hassert

/-- Helper: a successful convert stays within the envelope. -/
theorem convert_ok_safe {m : Money} {tc : CurrencyDefinition} {rate : JSNum}
    {r : RoundingMode} {y : Money} (h : Money.convert m tc rate r = .ok y) :
    -MAX_SAFE_INTEGER ≤ y.minor ∧ y.minor ≤ MAX_SAFE_INTEGER := by
  unfold Money.convert at h
  split at h
  · cases h
  · split at h
    · cases h
    · dsimp only at h
      split at h
      · cases h
      · rename_i hassert
        cases h
        exact assertSafeResult_ok_bounds hassert

/-- Helper: a successful percentOf stays within the envelope. -/
theorem percentOf_ok_safe {m : Money} {p : JSNum} {r : RoundingMode} {y : Money}
    (h : Money.percentOf m p r = .ok y) :
    -MAX_SAFE_INTEGER ≤ y.minor ∧ y.minor ≤ MAX_SAFE_INTEGER := by
  unfold Money.percentOf at h
  split at h
  · cases h
  · dsimp only at h
    split at h
    · cases h
    · rename_i hassert
      cases h
      exact assertSafeResult_ok_bounds hassert

/-- Helper: a successful incrementByPercent stays within the envelope. -/
theorem incrementByPercent_ok_safe {m : Money} {p : JSNum} {r : RoundingMode}
    {y : Money} (h : Money.incrementByPercent m p r = .ok y) :
    -MAX_SAFE_INTEGER ≤ y.minor ∧ y.minor ≤ MAX_SAFE_INTEGER := by
  unfold Money.incrementByPercent at h
  split at h
  · cases h
  · dsimp only at h
    split at h
    · cases h
    · rename_i hassert
      cases h
      exact assertSafeResult_ok_bounds hassert

/-- Helper: a successful decrementByPercent stays within the envelope. -/
theorem decrementByPercent_ok_safe {m : Money} {p : JSNum} {r : RoundingMode}
    {y : Money} (h : Money.decrementByPercent m p r = .ok y) :
    -MAX_SAFE_INTEGER ≤ y.minor ∧ y.minor ≤ MAX_SAFE_INTEGER := by
  unfold Money.decrementByPercent at h
  split at h
  · cases h
  · dsimp only at h
    split at h
    · cases h
    · rename_i hassert
      cases h
      exact assertSafeResult_ok_bounds hassert

/-- Helper: roundTo preserves the envelope: on an in-range input, a
successful result is in range (the aligned early return echoes the
input; every other branch passes the overflow guard). -/
theorem roundTo_ok_preserves {m : Money} {inc : JSNum} {mode : RoundingMode}
    {y : Money} (hin1 : -MAX_SAFE_INTEGER ≤ m.minor) (hin2 : m.minor ≤ MAX_SAFE_INTEGER)
    (h : Money.roundTo m inc mode = .ok y) :
    -MAX_SAFE_INTEGER ≤ y.minor ∧ y.minor ≤ MAX_SAFE_INTEGER := by
  unfold Money.roundTo at h
  split at h
  · cases h
  · split at h
    · cases h
    · dsimp only at h
      split at h
      · cases h
      · split at h
        · cases h
        · split at h
          · cases h
            exact ⟨hin1, hin2⟩
          · split at h
            · cases h
            · rename_i hassert
              cases h
              exact assertSafeResult_ok_bounds hassert
/-- Helper: inversion for a successful allocate: the count is a
positive safe integer and the shares are the quotient-plus-extra list. -/
theorem allocate_ok_shares {m : Money} {n : Int} {shares : List Money}
    (h : Money.allocate m n = .ok shares) :
    1 ≤ n ∧ n ≤ MAX_SAFE_INTEGER ∧
      shares = (List.range n.toNat).map (fun (i : Nat) =>
        ⟨m.minor.tdiv n +
          (if (i : Int) < (if m.minor.tmod n < 0 then -(m.minor.tmod n) else m.minor.tmod n)
           then (if m.minor.tmod n < 0 then -1 else 1) else 0), m.currency⟩) := by
  unfold Money.allocate at h
  split at h
  · cases h
  · split at h
    · cases h
    · rename_i hlt hgt
      cases h
      exact ⟨by omega, by omega, rfl⟩

/-- Helper: allocate preserves the envelope: every share of an in-range
amount is in range. -/
theorem allocate_ok_preserves {m : Money} {n : Int} {shares : List Money}
    (hin1 : -MAX_SAFE_INTEGER ≤ m.minor) (hin2 : m.minor ≤ MAX_SAFE_INTEGER)
    (h : Money.allocate m n = .ok shares) :
    ∀ x ∈ shares, -MAX_SAFE_INTEGER ≤ x.minor ∧ x.minor ≤ MAX_SAFE_INTEGER := by
  obtain ⟨hn1, hn2, hsh⟩ := allocate_ok_shares h
  intro x hx
  rw [hsh] at hx
  obtain ⟨i, hi, rfl⟩ := List.mem_map.1 hx
  dsimp only
  have habs : (m.minor.tdiv n).natAbs = m.minor.natAbs / n.natAbs :=
    Int.natAbs_tdiv _ _
  have hdivself : m.minor.natAbs / n.natAbs ≤ m.minor.natAbs := Nat.div_le_self _ _
  by_cases hlt : (i : Int) <
      (if m.minor.tmod n < 0 then -(m.minor.tmod n) else m.minor.tmod n)
  · rw [if_pos hlt]
    have hremne : m.minor.tmod n ≠ 0 := by
      intro h0
      rw [h0] at hlt
      simp at hlt
      omega
    have hn2' : 2 ≤ n := by
      rcases Int.lt_or_le n 2 with h2 | h2
      · have : n = 1 := by omega
        subst this
        exact absurd (Int.tmod_eq_zero_of_dvd (one_dvd _)) hremne
      · exact h2
    have hdivle : m.minor.natAbs / n.natAbs ≤ m.minor.natAbs / 2 :=
      Nat.div_le_div_left (by omega) (by norm_num)
    have hmx : MAX_SAFE_INTEGER = (9007199254740991 : Int) := by decide
    split <;> omega
  · rw [if_neg hlt]
    have hmx : MAX_SAFE_INTEGER = (9007199254740991 : Int) := by decide
    omega

/-- C3 (amended): every checked operation (fromNumber, add, subtract,
sum, convert, percentOf, incrementByPercent, decrementByPercent) only
ever produces a Money within the safe-integer envelope, failing with
ResultTooLarge otherwise; roundTo and allocate preserve the envelope
on in-range inputs; fromMinor alone wraps its argument unchecked
(caller-validated per the operation table). -/
theorem checked_ops_respect_envelope :
    (∀ (c : CurrencyDefinition) (v : JSNum) (r : RoundingMode) (st : Bool) (m : Money),
        Money.fromNumber c v r st = .ok m →
        -MAX_SAFE_INTEGER ≤ m.minor ∧ m.minor ≤ MAX_SAFE_INTEGER)
  ∧ (∀ a b m : Money, Money.add a b = .ok m →
        -MAX_SAFE_INTEGER ≤ m.minor ∧ m.minor ≤ MAX_SAFE_INTEGER)
  ∧ (∀ a b m : Money, Money.subtract a b = .ok m →
        -MAX_SAFE_INTEGER ≤ m.minor ∧ m.minor ≤ MAX_SAFE_INTEGER)
  ∧ (∀ (items : List Money) (m : Money), Money.sum items = .ok m →
        -MAX_SAFE_INTEGER ≤ m.minor ∧ m.minor ≤ MAX_SAFE_INTEGER)
  ∧ (∀ (m : Money) (tc : CurrencyDefinition) (rate : JSNum) (r : RoundingMode) (y : Money),
        Money.convert m tc rate r = .ok y →
        -MAX_SAFE_INTEGER ≤ y.minor ∧ y.minor ≤ MAX_SAFE_INTEGER)
  ∧ (∀ (m : Money) (p : JSNum) (r : RoundingMode) (y : Money),
        Money.percentOf m p r = .ok y →
        -MAX_SAFE_INTEGER ≤ y.minor ∧ y.minor ≤ MAX_SAFE_INTEGER)
  ∧ (∀ (m : Money) (p : JSNum) (r : RoundingMode) (y : Money),
        Money.incrementByPercent m p r = .ok y →
        -MAX_SAFE_INTEGER ≤ y.minor ∧ y.minor ≤ MAX_SAFE_INTEGER)
  ∧ (∀ (m : Money) (p : JSNum) (r : RoundingMode) (y : Money),
        Money.decrementByPercent m p r = .ok y →
        -MAX_SAFE_INTEGER ≤ y.minor ∧ y.minor ≤ MAX_SAFE_INTEGER)
  ∧ (∀ (m : Money) (inc : JSNum) (mode : RoundingMode) (y : Money),
        -MAX_SAFE_INTEGER ≤ m.minor → m.minor ≤ MAX_SAFE_INTEGER →
        Money.roundTo m inc mode = .ok y →
        -MAX_SAFE_INTEGER ≤ y.minor ∧ y.minor ≤ MAX_SAFE_INTEGER)
  ∧ (∀ (m : Money) (n : Int) (shares : List Money),
        -MAX_SAFE_INTEGER ≤ m.minor → m.minor ≤ MAX_SAFE_INTEGER →
        Money.allocate m n = .ok shares →
        ∀ x ∈ shares, -MAX_SAFE_INTEGER ≤ x.minor ∧ x.minor ≤ MAX_SAFE_INTEGER) :=
  ⟨fun _ _ _ _ _ h => fromNumber_ok_safe h,
   fun _ _ _ h => add_ok_safe h,
   fun _ _ _ h => subtract_ok_safe h,
   fun _ _ h => sum_ok_safe h,
   fun _ _ _ _ _ h => convert_ok_safe h,
   fun _ _ _ _ h => percentOf_ok_safe h,
   fun _ _ _ _ h => incrementByPercent_ok_safe h,
   fun _ _ _ _ h => decrementByPercent_ok_safe h,
   fun _ _ _ _ h1 h2 h => roundTo_ok_preserves h1 h2 h,
   fun _ _ _ h1 h2 h => allocate_ok_preserves h1 h2 h⟩

/-- Witness for C3 (amended): a concrete successful add lands within
the envelope. -/
theorem checked_ops_respect_envelope_witness :
    -MAX_SAFE_INTEGER ≤ (Money.mk 150 Currency.USD).minor
  ∧ (Money.mk 150 Currency.USD).minor ≤ MAX_SAFE_INTEGER :=
  checked_ops_respect_envelope.2.1 ⟨100, Currency.USD⟩ ⟨50, Currency.USD⟩
    ⟨150, Currency.USD⟩ rfl
/-- Helper: the sum loop over a list sharing one currency totals the
minor amounts. -/
theorem sumLoop_uniform (c : CurrencyDefinition) (l : List Money)
    (h : ∀ x ∈ l, x.currency = c) (acc : Int) :
    sumLoop c acc l = .ok (acc + (l.map Money.minor).sum) := by
  induction l generalizing acc with
  | nil => simp [sumLoop]
  | cons x xs ih =>
    have hx : x.currency = c := h x (List.mem_cons_self x xs)
    unfold sumLoop
    rw [hx, assertCurrenciesMatch_self]
    dsimp only
    rw [ih (fun y hy => h y (List.mem_cons_of_mem _ hy))]
    simp [add_assoc]

/-- Helper: sum of a base plus one extra unit on the first r positions
of a range of length k. -/
theorem sum_range_base_extra (base s : Int) (r k : Nat) :
    (((List.range k).map
        (fun (i : Nat) => base + (if (i : Int) < (r : Int) then s else 0))).sum)
      = k * base + (min r k) * s := by
  induction k with
  | zero => simp
  | succ k ih =>
    rw [List.range_succ, List.map_append, List.sum_append, ih]
    simp only [List.map_cons, List.map_nil, List.sum_cons, List.sum_nil]
    by_cases hk : (k : Int) < (r : Int)
    · rw [if_pos hk]
      have h1 : k < r := by exact_mod_cast hk
      have h2 : min r (k + 1) = k + 1 := by omega
      have h3 : min r k = k := by omega
      rw [h2, h3]
      push_cast
      ring
    · rw [if_neg hk]
      have h1 : r ≤ k := by exact_mod_cast not_lt.mp hk
      have h2 : min r (k + 1) = r := by omega
      have h3 : min r k = r := by omega
      rw [h2, h3]
      push_cast
      ring

/-- Helper: negating the dividend negates the truncating remainder. -/
theorem tmod_neg_dividend (a b : Int) : (-a).tmod b = -(a.tmod b) := by
  have h1 := Int.tdiv_add_tmod a b
  have h2 := Int.tdiv_add_tmod (-a) b
  rw [Int.neg_tdiv, mul_neg] at h2
  linarith

/-- Helper: the truncating remainder lies strictly between the negated
divisor and the divisor. -/
theorem tmod_bounds (a b : Int) (hb : 0 < b) : -b < a.tmod b ∧ a.tmod b < b := by
  rcases le_or_lt 0 a with ha | ha
  · constructor
    · have h := Int.tmod_nonneg b ha
      omega
    · exact Int.tmod_lt_of_pos a hb
  · have hneg : a = -(-a) := by ring
    rw [hneg, tmod_neg_dividend]
    have h1 : (0:Int) ≤ (-a).tmod b := Int.tmod_nonneg b (by omega)
    have h2 : (-a).tmod b < b := Int.tmod_lt_of_pos _ hb
    omega

/-- Helper: the allocation shares of an amount a into n parts sum back
to a exactly. -/
theorem allocate_shares_sum (a n : Int) (hn : 1 ≤ n) :
    (((List.range n.toNat).map
        (fun (i : Nat) => a.tdiv n +
          (if (i : Int) < (if a.tmod n < 0 then -(a.tmod n) else a.tmod n)
           then (if a.tmod n < 0 then -1 else 1) else 0))).sum) = a := by
  set rem := a.tmod n with hremdef
  set base := a.tdiv n with hbasedef
  set absRem : Int := if rem < 0 then -rem else rem with habsdef
  set sgn : Int := if rem < 0 then -1 else 1 with hsgndef
  have hbounds := tmod_bounds a n (by omega)
  have habs0 : 0 ≤ absRem := by rw [habsdef]; split <;> omega
  have habslt : absRem < n := by rw [habsdef]; split <;> omega
  have hcast : ((absRem.toNat : Nat) : Int) = absRem := Int.toNat_of_nonneg habs0
  have hmap : ((List.range n.toNat).map
        (fun (i : Nat) => base + (if (i : Int) < absRem then sgn else 0)))
      = ((List.range n.toNat).map
        (fun (i : Nat) => base + (if (i : Int) < ((absRem.toNat : Nat) : Int) then sgn else 0))) := by
    simp only [hcast]
  rw [hmap, sum_range_base_extra]
  have hmin : min absRem.toNat n.toNat = absRem.toNat := by omega
  rw [hmin]
  have h1 : ((n.toNat : Nat) : Int) = n := Int.toNat_of_nonneg (by omega)
  have h2 : absRem * sgn = rem := by rw [habsdef, hsgndef]; split <;> ring
  have h3 : n * base + rem = a := by rw [hbasedef, hremdef]; exact Int.tdiv_add_tmod a n
  rw [h1]
  calc n * base + (absRem.toNat : Int) * sgn
      = n * base + absRem * sgn := by rw [hcast]
    _ = n * base + rem := by rw [h2]
    _ = a := h3

/-- C2: for every Money within the envelope and every positive safe
count n, allocate succeeds, the shares sum back exactly to the
original Money, any two shares differ by at most one minor unit in
magnitude, and share i holds the truncated quotient plus one extra
unit carrying the sign of the remainder exactly when i is below the
absolute remainder (a deterministic prefix). -/
theorem allocate_conserves_sum (m : Money) (n : Int)
    (hn1 : 1 ≤ n) (hn2 : n ≤ MAX_SAFE_INTEGER)
    (hm1 : -MAX_SAFE_INTEGER ≤ m.minor) (hm2 : m.minor ≤ MAX_SAFE_INTEGER) :
    ∃ shares : List Money,
      Money.allocate m n = .ok shares
      ∧ Money.sum shares = .ok m
      ∧ shares.length = n.toNat
      ∧ (∀ x ∈ shares, ∀ y ∈ shares, (x.minor - y.minor).natAbs ≤ 1)
      ∧ (∀ i : Nat, ∀ hi : i < shares.length,
          shares.get ⟨i, hi⟩ =
            ⟨m.minor.tdiv n +
              (if (i : Int) < (if m.minor.tmod n < 0 then -(m.minor.tmod n) else m.minor.tmod n)
               then (if m.minor.tmod n < 0 then -1 else 1) else 0), m.currency⟩) := by
  refine ⟨(List.range n.toNat).map
      (fun (i : Nat) => ⟨m.minor.tdiv n +
        (if (i : Int) < (if m.minor.tmod n < 0 then -(m.minor.tmod n) else m.minor.tmod n)
         then (if m.minor.tmod n < 0 then -1 else 1) else 0), m.currency⟩),
    ?_, ?_, ?_, ?_, ?_⟩
  · unfold Money.allocate
    rw [if_neg (not_lt.mpr hn1), if_neg (not_lt.mpr hn2)]
  · -- the sum folds back to m
    have hminors : (((List.range n.toNat).map
        (fun (i : Nat) => (⟨m.minor.tdiv n +
          (if (i : Int) < (if m.minor.tmod n < 0 then -(m.minor.tmod n) else m.minor.tmod n)
           then (if m.minor.tmod n < 0 then -1 else 1) else 0), m.currency⟩ : Money))).map Money.minor)
        = ((List.range n.toNat).map
          (fun (i : Nat) => m.minor.tdiv n +
            (if (i : Int) < (if m.minor.tmod n < 0 then -(m.minor.tmod n) else m.minor.tmod n)
             then (if m.minor.tmod n < 0 then -1 else 1) else 0))) := by
      rw [List.map_map]
      rfl
    have htot := allocate_shares_sum m.minor n hn1
    have hlenpos : 0 < ((List.range n.toNat).map
        (fun (i : Nat) => (⟨m.minor.tdiv n +
          (if (i : Int) < (if m.minor.tmod n < 0 then -(m.minor.tmod n) else m.minor.tmod n)
           then (if m.minor.tmod n < 0 then -1 else 1) else 0), m.currency⟩ : Money))).length := by
      simp
      omega
    obtain ⟨hd, tl, hcons⟩ :=
      List.exists_cons_of_ne_nil (List.ne_nil_of_length_pos hlenpos)
    have hcur : ∀ x ∈ ((List.range n.toNat).map
        (fun (i : Nat) => (⟨m.minor.tdiv n +
          (if (i : Int) < (if m.minor.tmod n < 0 then -(m.minor.tmod n) else m.minor.tmod n)
           then (if m.minor.tmod n < 0 then -1 else 1) else 0), m.currency⟩ : Money))),
        x.currency = m.currency := by
      intro x hx
      obtain ⟨i, _, rfl⟩ := List.mem_map.1 hx
      rfl
    have hdcur : hd.currency = m.currency := by
      apply hcur
      rw [hcons]
      exact List.mem_cons_self _ _
    unfold Money.sum
    rw [hcons]
    dsimp only
    rw [hdcur, sumLoop_uniform m.currency (hd :: tl)
      (by rw [← hcons]; exact hcur) 0, ← hcons, hminors, htot, zero_add]
    dsimp only
    rw [assertSafeResult_eq_ok hm1 hm2]
  · simp
  · intro x hx y hy
    obtain ⟨i, _, rfl⟩ := List.mem_map.1 hx
    obtain ⟨j, _, rfl⟩ := List.mem_map.1 hy
    dsimp only
    split_ifs <;> omega
  · intro i hi
    rw [List.get_eq_getElem]
    rw [List.getElem_map]
    congr 1
    · congr 1
      rw [List.getElem_range]

/-- Witness for C2: allocating 1000 minor units of USD into 3 parts
conserves the amount with shares within one unit of each other. -/
theorem allocate_conserves_sum_witness :
    ∃ shares : List Money,
      Money.allocate ⟨1000, Currency.USD⟩ 3 = .ok shares
      ∧ Money.sum shares = .ok ⟨1000, Currency.USD⟩
      ∧ shares.length = (3 : Int).toNat
      ∧ (∀ x ∈ shares, ∀ y ∈ shares, (x.minor - y.minor).natAbs ≤ 1)
      ∧ (∀ i : Nat, ∀ hi : i < shares.length,
          shares.get ⟨i, hi⟩ =
            ⟨(1000 : Int).tdiv 3 +
              (if (i : Int) < (if (1000 : Int).tmod 3 < 0 then -((1000 : Int).tmod 3) else (1000 : Int).tmod 3)
               then (if (1000 : Int).tmod 3 < 0 then -1 else 1) else 0), Currency.USD⟩) :=
  allocate_conserves_sum ⟨1000, Currency.USD⟩ 3 (by decide) (by decide)
    (by decide) (by decide)
/-- Helper: folding trailing zero digits multiplies the accumulated
value by the corresponding power of ten. -/
theorem foldl_digits_zeros (j : Nat) (acc : Nat) :
    List.foldl (fun a d => a * 10 + d) acc (List.replicate j 0) = acc * 10 ^ j := by
  induction j generalizing acc with
  | zero => simp
  | succ j ih =>
    rw [List.replicate_succ, List.foldl_cons, ih]
    ring

/-- Helper: zero-padding a digit string multiplies its value by a power
of ten. -/
theorem decDigitsVal_append_zeros (ds : List Nat) (j : Nat) :
    decDigitsVal (ds ++ List.replicate j 0) = decDigitsVal ds * 10 ^ j := by
  unfold decDigitsVal
  rw [List.foldl_append, foldl_digits_zeros]

/-- Helper: padding a digit string of length at most 20 to the internal
precision scales its value by ten to the missing places. -/
theorem padded_digits_val (ds : List Nat) (hlen : ds.length ≤ INTERNAL_PRECISION) :
    decDigitsVal ((ds ++ List.replicate INTERNAL_PRECISION 0).take INTERNAL_PRECISION)
      = decDigitsVal ds * 10 ^ (INTERNAL_PRECISION - ds.length) := by
  rw [List.take_append_eq_append_take, List.take_of_length_le hlen,
    List.take_replicate]
  have hmin : min (INTERNAL_PRECISION - ds.length) INTERNAL_PRECISION
      = INTERNAL_PRECISION - ds.length := by omega
  rw [hmin, decDigitsVal_append_zeros]

/-- Helper: the fixed-notation parse equals the signed exact numerator
scaled by ten to the missing decimal places. -/
theorem parseFixedToScaled_eq (neg : Bool) (ip : Nat) (ds : List Nat)
    (hlen : ds.length ≤ INTERNAL_PRECISION) :
    parseFixedToScaled neg ip ds
      = (if neg then (-1 : Int) else 1) *
          ((ip * 10 ^ ds.length + decDigitsVal ds : Nat) : Int)
            * 10 ^ (INTERNAL_PRECISION - ds.length) := by
  unfold parseFixedToScaled
  dsimp only
  rw [padded_digits_val ds hlen]
  have hsplit : INTERNAL_SCALE = 10 ^ ds.length * 10 ^ (INTERNAL_PRECISION - ds.length) := by
    unfold INTERNAL_SCALE
    rw [← pow_add]
    congr 1
    omega
  rw [hsplit]
  cases neg <;> simp <;> ring

/-- Helper: the divisor from internal scale down to dp decimal places
is ten to the remaining places. -/
theorem internal_divisor_eq (dp : Nat) (hdp : dp ≤ INTERNAL_PRECISION) :
    INTERNAL_SCALE.tdiv (10 ^ dp) = 10 ^ (INTERNAL_PRECISION - dp) := by
  have hsplit : INTERNAL_SCALE = 10 ^ dp * 10 ^ (INTERNAL_PRECISION - dp) := by
    unfold INTERNAL_SCALE
    rw [← pow_add]
    congr 1
    omega
  rw [hsplit, Int.tdiv_eq_ediv (by positivity) (by positivity),
    Int.mul_ediv_cancel_left _ (by positivity)]

/-- Modelled from the spec wording: a decimal string denotes the
rational with numerator absNum over ten to the number of decimal
digits, shifted by any exponent; the value is exactly representable at
dp decimal places when the value times ten to the dp is an integer. -/
def exactlyRepresentableAt (s : DecStr) (dp : Nat) : Prop :=
  match s.exp with
  | none => 10 ^ s.decPart.length ∣ s.absNum * 10 ^ dp
  | some e =>
    if 0 ≤ e then 10 ^ s.decPart.length ∣ s.absNum * 10 ^ dp * 10 ^ e.toNat
    else 10 ^ (s.decPart.length + (-e).toNat) ∣ s.absNum * 10 ^ dp

/-- Helper: in fixed notation the representability predicate is the
plain divisibility of the shifted numerator. -/
theorem exactlyRepresentableAt_fixed {s : DecStr} {dp : Nat} (hexp : s.exp = none) :
    exactlyRepresentableAt s dp ↔ 10 ^ s.decPart.length ∣ s.absNum * 10 ^ dp := by
  unfold exactlyRepresentableAt
  rw [hexp]

/-- Helper: the strict-mode divisibility test of fromNumber holds
exactly when the decimal string is representable at dp places. -/
theorem strict_divisibility_iff (s : DecStr) (dp : Nat)
    (hdp : dp ≤ INTERNAL_PRECISION) (hexp : s.exp = none)
    (hlen : s.decPart.length ≤ INTERNAL_PRECISION) :
    (parseDecimalStringToScaled s).tmod (INTERNAL_SCALE.tdiv (10 ^ dp)) = 0
      ↔ exactlyRepresentableAt s dp := by
  unfold parseDecimalStringToScaled
  rw [hexp]
  rw [parseFixedToScaled_eq s.negative s.intPart s.decPart hlen,
    internal_divisor_eq dp hdp]
  rw [← Int.dvd_iff_tmod_eq_zero]
  rw [exactlyRepresentableAt_fixed hexp]
  unfold DecStr.absNum
  set L := s.decPart.length with hL
  set A : Int := ((s.intPart * 10 ^ L + decDigitsVal s.decPart : Nat) : Int) with hA
  have hsign : (10 : Int) ^ (INTERNAL_PRECISION - dp) ∣
      (if s.negative then (-1 : Int) else 1) * A * 10 ^ (INTERNAL_PRECISION - L)
      ↔ (10 : Int) ^ (INTERNAL_PRECISION - dp) ∣ A * 10 ^ (INTERNAL_PRECISION - L) := by
    cases s.negative <;> simp
  rw [hsign]
  have hchain : (10 : Int) ^ (INTERNAL_PRECISION - dp) ∣ A * 10 ^ (INTERNAL_PRECISION - L)
      ↔ (10 : Int) ^ L ∣ A * 10 ^ dp := by
    constructor
    · intro h
      have h2 : (10 : Int) ^ (INTERNAL_PRECISION - dp) * 10 ^ dp ∣
          A * 10 ^ (INTERNAL_PRECISION - L) * 10 ^ dp := mul_dvd_mul h dvd_rfl
      rw [← pow_add] at h2
      have he : INTERNAL_PRECISION - dp + dp = INTERNAL_PRECISION := by omega
      rw [he] at h2
      have h3 : (10 : Int) ^ L * 10 ^ (INTERNAL_PRECISION - L) ∣
          A * 10 ^ dp * 10 ^ (INTERNAL_PRECISION - L) := by
        rw [← pow_add]
        have he2 : L + (INTERNAL_PRECISION - L) = INTERNAL_PRECISION := by omega
        rw [he2]
        calc (10 : Int) ^ INTERNAL_PRECISION ∣ A * 10 ^ (INTERNAL_PRECISION - L) * 10 ^ dp := h2
          _ = A * 10 ^ dp * 10 ^ (INTERNAL_PRECISION - L) := by ring
      exact (mul_dvd_mul_iff_right (by positivity : (10 : Int) ^ (INTERNAL_PRECISION - L) ≠ 0)).mp h3
    · intro h
      have h2 : (10 : Int) ^ L * 10 ^ (INTERNAL_PRECISION - L) ∣
          A * 10 ^ dp * 10 ^ (INTERNAL_PRECISION - L) := mul_dvd_mul h dvd_rfl
      rw [← pow_add] at h2
      have he : L + (INTERNAL_PRECISION - L) = INTERNAL_PRECISION := by omega
      rw [he] at h2
      have h3 : (10 : Int) ^ (INTERNAL_PRECISION - dp) * 10 ^ dp ∣
          A * 10 ^ (INTERNAL_PRECISION - L) * 10 ^ dp := by
        rw [← pow_add]
        have he2 : INTERNAL_PRECISION - dp + dp = INTERNAL_PRECISION := by omega
        rw [he2]
        calc (10 : Int) ^ INTERNAL_PRECISION ∣ A * 10 ^ dp * 10 ^ (INTERNAL_PRECISION - L) := h2
          _ = A * 10 ^ (INTERNAL_PRECISION - L) * 10 ^ dp := by ring
      exact (mul_dvd_mul_iff_right (by positivity : (10 : Int) ^ dp ≠ 0)).mp h3
  rw [hchain, hA]
  constructor
  · intro h
    exact_mod_cast h
  · intro h
    exact_mod_cast h

/-- Helper: when the scaled value divides evenly, rounding is exact in
every mode and returns the quotient. -/
theorem roundScaledToMinor_exact {scaled : Int} {dp : Nat} (mode : RoundingMode)
    (h : scaled.tmod (INTERNAL_SCALE.tdiv (10 ^ dp)) = 0) :
    roundScaledToMinor scaled dp mode = scaled.tdiv (INTERNAL_SCALE.tdiv (10 ^ dp)) := by
  unfold roundScaledToMinor
  dsimp only
  rw [if_pos h]

/-- C4 counterexample: strict success is not equivalent to exact
representability over all finite values: the integer 2^53 is exactly
representable at two decimal places yet fromNumber fails with
ValueTooLarge at the pre-check, and the number 1e-21 (whose host
string is 1.0000000000000001e-21) is not representable at two decimal
places yet strict fromNumber succeeds with amount 0, the codec having
truncated it to zero. -/
theorem fromNumber_strict_iff_counterexample :
    Money.fromNumber Currency.USD (.finite ⟨false, 2 ^ 53, [], none⟩) .round true
      = .error .valueTooLarge
  ∧ exactlyRepresentableAt ⟨false, 2 ^ 53, [], none⟩ Currency.USD.decimalPlaces
  ∧ Money.fromNumber Currency.USD
      (.finite ⟨false, 1, [0, 0, 0, 0, 0, 0, 0, 0, 0, 0, 0, 0, 0, 0, 0, 1], some (-21)⟩)
      .round true = .ok ⟨0, Currency.USD⟩
  ∧ ¬ exactlyRepresentableAt
      ⟨false, 1, [0, 0, 0, 0, 0, 0, 0, 0, 0, 0, 0, 0, 0, 0, 0, 1], some (-21)⟩
      Currency.USD.decimalPlaces := by
  refine ⟨by decide, ?_, by decide, ?_⟩
  · unfold exactlyRepresentableAt DecStr.absNum
    decide
  · unfold exactlyRepresentableAt DecStr.absNum
    decide

/-- C4 (amended): within the fixed-notation regime (value string in
fixed notation with at most 20 decimal digits, currency with at most
20 decimal places, the envelope pre-check passing and the exact
quotient within the envelope), strict fromNumber succeeds exactly when
the value is representable at the currency decimal places, and fails
with PrecisionLoss exactly when it is not; outside this regime the
claimed equivalence fails on the code (see the counterexample: an
oversized representable integer fails with ValueTooLarge, and a value
below the internal precision is truncated by the codec and succeeds). -/
theorem fromNumber_strict_succeeds_iff (c : CurrencyDefinition) (s : DecStr)
    (r : RoundingMode)
    (hdp : c.decimalPlaces ≤ INTERNAL_PRECISION)
    (hexp : s.exp = none)
    (hlen : s.decPart.length ≤ INTERNAL_PRECISION)
    (hpre : estimatedMinorExceedsSafe (.finite s) c.decimalPlaces = false)
    (hq1 : -MAX_SAFE_INTEGER ≤
      (parseDecimalStringToScaled s).tdiv (INTERNAL_SCALE.tdiv (10 ^ c.decimalPlaces)))
    (hq2 : (parseDecimalStringToScaled s).tdiv (INTERNAL_SCALE.tdiv (10 ^ c.decimalPlaces))
      ≤ MAX_SAFE_INTEGER) :
    ((∃ m : Money, Money.fromNumber c (.finite s) r true = .ok m)
      ↔ exactlyRepresentableAt s c.decimalPlaces)
    ∧ (¬ exactlyRepresentableAt s c.decimalPlaces →
        Money.fromNumber c (.finite s) r true = .error .precisionLoss) := by
  unfold Money.fromNumber
  rw [hpre]
  simp only [Bool.false_eq_true, if_false, numberToDecimalString]
  by_cases hmod : (parseDecimalStringToScaled s).tmod (INTERNAL_SCALE.tdiv (10 ^ c.decimalPlaces)) = 0
  · rw [if_neg (by simp [hmod])]
    rw [roundScaledToMinor_exact r hmod, assertSafeResult_eq_ok hq1 hq2]
    constructor
    · constructor
      · intro _
        exact (strict_divisibility_iff s c.decimalPlaces hdp hexp hlen).mp hmod
      · intro _
        exact ⟨_, rfl⟩
    · intro hnr
      exact absurd ((strict_divisibility_iff s c.decimalPlaces hdp hexp hlen).mp hmod) hnr
  · rw [if_pos (by simp [hmod])]
    constructor
    · constructor
      · intro ⟨m, hm⟩
        cases hm
      · intro h
        exact absurd ((strict_divisibility_iff s c.decimalPlaces hdp hexp hlen).mpr h) hmod
    · intro _
      rfl

/-- Witness for C4 (amended): 12.34 is representable in USD so strict
construction succeeds, and 12.345 is not so it fails with
PrecisionLoss. -/
theorem fromNumber_strict_succeeds_iff_witness :
    (∃ m : Money,
      Money.fromNumber Currency.USD (.finite ⟨false, 12, [3, 4], none⟩) .round true
        = .ok m)
  ∧ Money.fromNumber Currency.USD (.finite ⟨false, 12, [3, 4, 5], none⟩) .round true
      = .error .precisionLoss :=
  ⟨(fromNumber_strict_succeeds_iff Currency.USD ⟨false, 12, [3, 4], none⟩ .round
        (by decide) rfl (by decide) (by decide) (by decide) (by decide)).1.mpr
      (by unfold exactlyRepresentableAt DecStr.absNum; decide),
   (fromNumber_strict_succeeds_iff Currency.USD ⟨false, 12, [3, 4, 5], none⟩ .round
        (by decide) rfl (by decide) (by decide) (by decide) (by decide)).2
      (by unfold exactlyRepresentableAt DecStr.absNum; decide)⟩
/-- Helper: the remainder carries the sign of the dividend: nonpositive
for a negative dividend. -/
theorem tmod_nonpos_of_neg {a : Int} (b : Int) (ha : a < 0) : a.tmod b ≤ 0 := by
  have h : a = -(-a) := by ring
  rw [h, tmod_neg_dividend]
  have := Int.tmod_nonneg b (by omega : (0:Int) ≤ -a)
  omega

/-- Helper: at an exact midpoint, roundScaledToMinor under the default
policy returns the neighbor toward positive infinity: the quotient
plus one for non-negative values, the bare (toward-zero) quotient for
negative values. -/
theorem roundScaled_midpoint_half_up (scaled : Int) (dp : Nat)
    (hdp : dp < INTERNAL_PRECISION)
    (hmid : 2 * (scaled.tmod (INTERNAL_SCALE.tdiv (10 ^ dp))).natAbs
      = (INTERNAL_SCALE.tdiv (10 ^ dp)).natAbs) :
    roundScaledToMinor scaled dp .round =
      (if scaled < 0 then scaled.tdiv (INTERNAL_SCALE.tdiv (10 ^ dp))
       else scaled.tdiv (INTERNAL_SCALE.tdiv (10 ^ dp)) + 1) := by
  unfold roundScaledToMinor
  dsimp only
  set D := INTERNAL_SCALE.tdiv (10 ^ dp) with hD
  set R := scaled.tmod D with hR
  have hdiveq : D = 10 ^ (INTERNAL_PRECISION - dp) := internal_divisor_eq dp (by omega)
  have hdivpos : 0 < D := by rw [hdiveq]; positivity
  have heven : (2 : Int) ∣ D := by
    rw [hdiveq]
    exact dvd_pow (by norm_num) (by omega)
  obtain ⟨k, hk⟩ := heven
  have hhalf : D.tdiv 2 = k := by
    rw [hk, Int.mul_comm, Int.mul_tdiv_cancel _ (by norm_num)]
  have hremne : R ≠ 0 := by
    intro h0
    rw [h0] at hmid
    simp at hmid
    omega
  rw [if_neg hremne]
  by_cases hneg : scaled < 0
  · have hrle : R ≤ 0 := by rw [hR]; exact tmod_nonpos_of_neg D hneg
    have habsR : (if scaled < 0 then -R else R) = -R := if_pos hneg
    have hmidI : -R = D.tdiv 2 := by rw [hhalf]; omega
    rw [habsR, hmidI]
    have hcond : ¬(D.tdiv 2 > D.tdiv 2 ∨ (D.tdiv 2 = D.tdiv 2 ∧ ¬ scaled < 0)) := by
      push_neg
      exact ⟨le_refl _, fun _ => hneg⟩
    rw [if_neg hcond, if_pos hneg]
  · have hrge : 0 ≤ R := by rw [hR]; exact Int.tmod_nonneg D (not_lt.mp hneg)
    have habsR : (if scaled < 0 then -R else R) = R := if_neg hneg
    have hmidI : R = D.tdiv 2 := by rw [hhalf]; omega
    rw [habsR, hmidI]
    have hcond : (D.tdiv 2 > D.tdiv 2 ∨ (D.tdiv 2 = D.tdiv 2 ∧ ¬ scaled < 0)) :=
      Or.inr ⟨rfl, hneg⟩
    rw [if_pos hcond, if_neg hneg, if_neg hneg]

/-- Helper: at an exact midpoint of a valid increment step, roundTo
under the default policy returns the multiple toward positive
infinity: the aligned base for negative amounts, the base plus one
step for non-negative amounts. -/
theorem roundTo_midpoint_half_up (m : Money) (inc : DecStr)
    (hfin : jsNonFiniteOrNonpos (.finite inc) = false)
    (hrep : (parseDecimalStringToScaled inc).tmod
      (INTERNAL_SCALE.tdiv (10 ^ m.currency.decimalPlaces)) = 0)
    (hpos : 0 < (parseDecimalStringToScaled inc).tdiv
      (INTERNAL_SCALE.tdiv (10 ^ m.currency.decimalPlaces)))
    (hmid : 2 * (m.minor.tmod ((parseDecimalStringToScaled inc).tdiv
        (INTERNAL_SCALE.tdiv (10 ^ m.currency.decimalPlaces)))).natAbs
      = ((parseDecimalStringToScaled inc).tdiv
        (INTERNAL_SCALE.tdiv (10 ^ m.currency.decimalPlaces))).natAbs)
    (hs1 : -MAX_SAFE_INTEGER ≤
      (if m.minor < 0 then
        m.minor - m.minor.tmod ((parseDecimalStringToScaled inc).tdiv
          (INTERNAL_SCALE.tdiv (10 ^ m.currency.decimalPlaces)))
       else
        m.minor - m.minor.tmod ((parseDecimalStringToScaled inc).tdiv
          (INTERNAL_SCALE.tdiv (10 ^ m.currency.decimalPlaces)))
          + (parseDecimalStringToScaled inc).tdiv
              (INTERNAL_SCALE.tdiv (10 ^ m.currency.decimalPlaces))))
    (hs2 : (if m.minor < 0 then
        m.minor - m.minor.tmod ((parseDecimalStringToScaled inc).tdiv
          (INTERNAL_SCALE.tdiv (10 ^ m.currency.decimalPlaces)))
       else
        m.minor - m.minor.tmod ((parseDecimalStringToScaled inc).tdiv
          (INTERNAL_SCALE.tdiv (10 ^ m.currency.decimalPlaces)))
          + (parseDecimalStringToScaled inc).tdiv
              (INTERNAL_SCALE.tdiv (10 ^ m.currency.decimalPlaces)))
      ≤ MAX_SAFE_INTEGER) :
    Money.roundTo m (.finite inc) .round =
      .ok ⟨if m.minor < 0 then
            m.minor - m.minor.tmod ((parseDecimalStringToScaled inc).tdiv
              (INTERNAL_SCALE.tdiv (10 ^ m.currency.decimalPlaces)))
           else
            m.minor - m.minor.tmod ((parseDecimalStringToScaled inc).tdiv
              (INTERNAL_SCALE.tdiv (10 ^ m.currency.decimalPlaces)))
              + (parseDecimalStringToScaled inc).tdiv
                  (INTERNAL_SCALE.tdiv (10 ^ m.currency.decimalPlaces)),
           m.currency⟩ := by
  unfold Money.roundTo
  rw [hfin]
  simp only [Bool.false_eq_true, if_false, numberToDecimalString]
  set D := INTERNAL_SCALE.tdiv (10 ^ m.currency.decimalPlaces) with hD
  set S := parseDecimalStringToScaled inc with hS
  rw [if_neg (not_not_intro hrep)]
  set I := S.tdiv D with hI
  rw [if_neg (by omega : ¬ I = 0)]
  have hremne : m.minor.tmod I ≠ 0 := by
    intro h0
    rw [h0] at hmid
    simp at hmid
    omega
  set R := m.minor.tmod I with hR
  rw [if_neg hremne]
  have hrabs : 0 ≤ R → R = I - R ∨ 2 * R = I := by omega
  have hcmp : (if R < 0 then -R else R) * 2 - I = 0 := by
    split <;> omega
  rw [hcmp]
  rw [if_neg (lt_irrefl (0 : Int))]
  rw [if_neg (lt_irrefl (0 : Int))]
  rw [assertSafeResult_eq_ok hs1 hs2]

/-- C5 (amended): under the default policy every exact midpoint rounds
toward positive infinity (half-up): non-negative values round away
from zero and negative values round toward zero, both when
roundScaledToMinor projects a scaled value down to minor units and
when roundTo rounds a minor amount to an increment step. -/
theorem default_policy_midpoints_round_half_up :
    (∀ (scaled : Int) (dp : Nat), dp < INTERNAL_PRECISION →
      2 * (scaled.tmod (INTERNAL_SCALE.tdiv (10 ^ dp))).natAbs
        = (INTERNAL_SCALE.tdiv (10 ^ dp)).natAbs →
      roundScaledToMinor scaled dp .round =
        (if scaled < 0 then scaled.tdiv (INTERNAL_SCALE.tdiv (10 ^ dp))
         else scaled.tdiv (INTERNAL_SCALE.tdiv (10 ^ dp)) + 1))
  ∧ (∀ (m : Money) (inc : DecStr),
      jsNonFiniteOrNonpos (.finite inc) = false →
      (parseDecimalStringToScaled inc).tmod
        (INTERNAL_SCALE.tdiv (10 ^ m.currency.decimalPlaces)) = 0 →
      0 < (parseDecimalStringToScaled inc).tdiv
        (INTERNAL_SCALE.tdiv (10 ^ m.currency.decimalPlaces)) →
      2 * (m.minor.tmod ((parseDecimalStringToScaled inc).tdiv
          (INTERNAL_SCALE.tdiv (10 ^ m.currency.decimalPlaces)))).natAbs
        = ((parseDecimalStringToScaled inc).tdiv
          (INTERNAL_SCALE.tdiv (10 ^ m.currency.decimalPlaces))).natAbs →
      -MAX_SAFE_INTEGER ≤
        (if m.minor < 0 then
          m.minor - m.minor.tmod ((parseDecimalStringToScaled inc).tdiv
            (INTERNAL_SCALE.tdiv (10 ^ m.currency.decimalPlaces)))
         else
          m.minor - m.minor.tmod ((parseDecimalStringToScaled inc).tdiv
            (INTERNAL_SCALE.tdiv (10 ^ m.currency.decimalPlaces)))
            + (parseDecimalStringToScaled inc).tdiv
                (INTERNAL_SCALE.tdiv (10 ^ m.currency.decimalPlaces))) →
      (if m.minor < 0 then
          m.minor - m.minor.tmod ((parseDecimalStringToScaled inc).tdiv
            (INTERNAL_SCALE.tdiv (10 ^ m.currency.decimalPlaces)))
         else
          m.minor - m.minor.tmod ((parseDecimalStringToScaled inc).tdiv
            (INTERNAL_SCALE.tdiv (10 ^ m.currency.decimalPlaces)))
            + (parseDecimalStringToScaled inc).tdiv
                (INTERNAL_SCALE.tdiv (10 ^ m.currency.decimalPlaces)))
        ≤ MAX_SAFE_INTEGER →
      Money.roundTo m (.finite inc) .round =
        .ok ⟨if m.minor < 0 then
              m.minor - m.minor.tmod ((parseDecimalStringToScaled inc).tdiv
                (INTERNAL_SCALE.tdiv (10 ^ m.currency.decimalPlaces)))
             else
              m.minor - m.minor.tmod ((parseDecimalStringToScaled inc).tdiv
                (INTERNAL_SCALE.tdiv (10 ^ m.currency.decimalPlaces)))
                + (parseDecimalStringToScaled inc).tdiv
                    (INTERNAL_SCALE.tdiv (10 ^ m.currency.decimalPlaces)),
             m.currency⟩) :=
  ⟨roundScaled_midpoint_half_up, roundTo_midpoint_half_up⟩

/-- Witness for C5 (amended): the positive midpoint 0.005 at two
decimal places rounds up to one minor unit. -/
theorem default_policy_midpoints_round_half_up_witness :
    roundScaledToMinor (5 * 10 ^ 17) 2 .round = 1 := by
  have h := default_policy_midpoints_round_half_up.1 (5 * 10 ^ 17) 2
    (by decide) (by decide)
  rw [h]
  decide
/-- Helper: rounding an amount already aligned to a valid increment
returns an equal Money through the early aligned branch. -/
theorem roundTo_aligned (y : Money) (inc : DecStr) (mode : RoundingMode)
    (hfin : jsNonFiniteOrNonpos (.finite inc) = false)
    (hrep : (parseDecimalStringToScaled inc).tmod
      (INTERNAL_SCALE.tdiv (10 ^ y.currency.decimalPlaces)) = 0)
    (hzero : (parseDecimalStringToScaled inc).tdiv
      (INTERNAL_SCALE.tdiv (10 ^ y.currency.decimalPlaces)) ≠ 0)
    (halign : y.minor.tmod ((parseDecimalStringToScaled inc).tdiv
      (INTERNAL_SCALE.tdiv (10 ^ y.currency.decimalPlaces))) = 0) :
    Money.roundTo y (.finite inc) mode = .ok y := by
  unfold Money.roundTo
  rw [hfin]
  simp only [Bool.false_eq_true, if_false, numberToDecimalString]
  rw [if_neg (not_not_intro hrep), if_neg hzero, if_pos halign]

/-- Helper: inversion for a successful roundTo: the increment was a
finite positive decimal, exactly representable with a non-zero step,
the currency is preserved, and the resulting amount is aligned to the
step. -/
theorem roundTo_ok_aligned_result {m : Money} {inc : JSNum}
    {mode : RoundingMode} {y : Money} (h : Money.roundTo m inc mode = .ok y) :
    ∃ s : DecStr, inc = .finite s
      ∧ jsNonFiniteOrNonpos (.finite s) = false
      ∧ y.currency = m.currency
      ∧ (parseDecimalStringToScaled s).tmod
          (INTERNAL_SCALE.tdiv (10 ^ m.currency.decimalPlaces)) = 0
      ∧ (parseDecimalStringToScaled s).tdiv
          (INTERNAL_SCALE.tdiv (10 ^ m.currency.decimalPlaces)) ≠ 0
      ∧ y.minor.tmod ((parseDecimalStringToScaled s).tdiv
          (INTERNAL_SCALE.tdiv (10 ^ m.currency.decimalPlaces))) = 0 := by
  unfold Money.roundTo at h
  split at h
  · cases h
  · rename_i hfin
    split at h
    · cases h
    · rename_i s heq
      have hinc : inc = .finite s := by
        cases inc with
        | finite t => cases heq; rfl
        | nan => cases heq
        | posInf => cases heq
        | negInf => cases heq
      have hfin' : jsNonFiniteOrNonpos inc = false := by
        simp only [Bool.not_eq_true] at hfin
        exact hfin
      dsimp only at h
      split at h
      · cases h
      · rename_i hrep
        rw [not_not] at hrep
        split at h
        · cases h
        · rename_i hzero
          have hdvd_base : (parseDecimalStringToScaled s).tdiv
              (INTERNAL_SCALE.tdiv (10 ^ m.currency.decimalPlaces)) ∣
              (m.minor - m.minor.tmod ((parseDecimalStringToScaled s).tdiv
                (INTERNAL_SCALE.tdiv (10 ^ m.currency.decimalPlaces)))) := by
            refine ⟨m.minor.tdiv ((parseDecimalStringToScaled s).tdiv
              (INTERNAL_SCALE.tdiv (10 ^ m.currency.decimalPlaces))), ?_⟩
            have hid := Int.tdiv_add_tmod m.minor
              ((parseDecimalStringToScaled s).tdiv
                (INTERNAL_SCALE.tdiv (10 ^ m.currency.decimalPlaces)))
            linarith
          split at h
          · rename_i halign
            cases h
            exact ⟨s, hinc ▸ rfl, hinc ▸ hfin', rfl, hrep, hzero, halign⟩
          · rename_i hremne
            split at h
            · cases h
            · rename_i hassert
              cases h
              refine ⟨s, hinc ▸ rfl, hinc ▸ hfin', rfl, hrep, hzero, ?_⟩
              apply Int.tmod_eq_zero_of_dvd
              dsimp only
              cases mode with
              | trunc => exact hdvd_base
              | floor =>
                dsimp only
                split_ifs
                · exact dvd_sub hdvd_base dvd_rfl
                · exact hdvd_base
              | ceil =>
                dsimp only
                split_ifs
                · exact hdvd_base
                · exact dvd_add hdvd_base dvd_rfl
              | round =>
                dsimp only
                split_ifs <;>
                  first
                    | exact hdvd_base
                    | exact dvd_sub hdvd_base dvd_rfl
                    | exact dvd_add hdvd_base dvd_rfl

/-- C9: rounding to an increment is idempotent: whenever
roundTo(x, inc, mode) succeeds, rounding its result again with the
same increment and mode returns it unchanged; and rounding an amount
already aligned to a valid increment step returns an equal value. -/
theorem roundTo_idempotent :
    (∀ (m : Money) (inc : JSNum) (mode : RoundingMode) (y : Money),
        Money.roundTo m inc mode = .ok y → Money.roundTo y inc mode = .ok y)
  ∧ (∀ (y : Money) (inc : DecStr) (mode : RoundingMode),
        jsNonFiniteOrNonpos (.finite inc) = false →
        (parseDecimalStringToScaled inc).tmod
          (INTERNAL_SCALE.tdiv (10 ^ y.currency.decimalPlaces)) = 0 →
        (parseDecimalStringToScaled inc).tdiv
          (INTERNAL_SCALE.tdiv (10 ^ y.currency.decimalPlaces)) ≠ 0 →
        y.minor.tmod ((parseDecimalStringToScaled inc).tdiv
          (INTERNAL_SCALE.tdiv (10 ^ y.currency.decimalPlaces))) = 0 →
        Money.roundTo y (.finite inc) mode = .ok y) := by
  constructor
  · intro m inc mode y h
    obtain ⟨s, rfl, hfin, hcur, hrep, hzero, halign⟩ := roundTo_ok_aligned_result h
    apply roundTo_aligned y s mode hfin
    · rw [hcur]
      exact hrep
    · rw [hcur]
      exact hzero
    · rw [hcur]
      exact halign
  · intro y inc mode hfin hrep hzero halign
    exact roundTo_aligned y inc mode hfin hrep hzero halign

/-- Witness for C9: rounding 105 cents to the nearest dime gives 110,
and rounding 110 again is a fixed point. -/
theorem roundTo_idempotent_witness :
    Money.roundTo ⟨110, Currency.USD⟩ (.finite ⟨false, 0, [1], none⟩) .round
      = .ok ⟨110, Currency.USD⟩ :=
  roundTo_idempotent.1 ⟨105, Currency.USD⟩ (.finite ⟨false, 0, [1], none⟩) .round
    ⟨110, Currency.USD⟩ rfl
